import Mathlib

/-!
Verification of the `flowspecinternal` package (floofspectools):
a shallow embedding of the RFC8955 §5.1 ordering comparator
(`CompareFlowSpecKey`, from ordering.go) and of the RFC8955 §6 / RFC9117 §4
feasibility validator (`ValidateFeasibility`, from validator.go), together
with theorems settling the specification's claims about them.

Machine integers are modelled as `Nat` (all the integers involved — component
types, byte values, AS numbers, lengths — are non-negative and no arithmetic
in the source can overflow); byte slices are `List Nat`; the Go `int8`
comparison result is an `Int`.  `netip.Addr` is modelled as a family flag
(IPv4 or IPv6) plus its numeric value, which is what `Addr.Less`,
`Addr.Compare` and `Prefix.Contains` observe (zones never occur here:
no value in this package carries one).
-/

namespace FSpec

/-- ordering.go: `AHasPrecedence int8 = -1`. -/
def AHasPrecedence : Int := -1

/-- ordering.go: `Equal int8 = 0`. -/
def Equal : Int := 0

/-- ordering.go: `BHasPrecedence int8 = 1`. -/
def BHasPrecedence : Int := 1

/-- `netip.Addr`: an IP address, either IPv4 (32 bits) or IPv6 (128 bits),
with its numeric (big-endian) value. -/
structure Addr where
  is6 : Bool
  val : Nat
deriving DecidableEq

/-- The bit width of the address family (`netip.Addr.BitLen` for a valid address). -/
def Addr.width (a : Addr) : Nat := if a.is6 then 128 else 32

/-- `netip.Addr.Less`: sorts first by length (IPv4 addresses sort before
IPv6 addresses), then numerically by value. -/
def Addr.Less (a b : Addr) : Bool :=
  if a.is6 = b.is6 then decide (a.val < b.val) else !a.is6 && b.is6

/-- `netip.Prefix`: an address plus a prefix bit-length.  Valid Go values
have `bits ≤ ip.width`; the address need not be masked to the prefix length. -/
structure Prefix where
  ip : Addr
  bits : Nat
deriving DecidableEq

/-- `netip.Prefix.Bits`. -/
def Prefix.Bits (p : Prefix) : Nat := p.bits

/-- `netip.Prefix.Addr`. -/
def Prefix.Addr (p : Prefix) : FSpec.Addr := p.ip

/-- `netip.Prefix.Contains`: same family and the top `bits` bits of the two
addresses agree (dividing by `2 ^ (width - bits)` discards the low bits). -/
def Prefix.Contains (p : Prefix) (a : FSpec.Addr) : Bool :=
  (a.is6 = p.ip.is6) ∧ (a.val / 2 ^ (p.ip.width - p.bits) = p.ip.val / 2 ^ (p.ip.width - p.bits))

/-- types.go: `ComponentType uint8`. -/
abbrev ComponentType := Nat

/-- types.go: `ComponentTypeDestinationPrefix ComponentType = 1`. -/
def ComponentTypeDestinationPrefix : ComponentType := 1

/-- types.go: `ComponentTypeSourcePrefix ComponentType = 2`. -/
def ComponentTypeSourcePrefix : ComponentType := 2

/-- types.go: `ComponentTypeIpProtocol ComponentType = 3`. -/
def ComponentTypeIpProtocol : ComponentType := 3

/-- types.go: `ComponentTypePort ComponentType = 4`. -/
def ComponentTypePort : ComponentType := 4

/-- types.go: `FSComponent`.  For types 1/2 the `Prefix` payload is used, for
all other types the `Raw` byte slice is used.  (In Go `Prefix` is a pointer;
a nil pointer on a prefix-typed component would panic in the comparator and
is not representable here.) -/
structure FSComponent where
  type : Nat
  Prefix : Prefix
  Raw : List Nat
deriving DecidableEq

/-- types.go: `FSComponentList`. -/
structure FSComponentList where
  Components : List FSComponent
deriving DecidableEq

/-- The byte-by-byte comparison loop of ordering.go (`araw[j] < braw[j]` /
`braw[j] < araw[j]`, first difference decides); it stops when either slice is
exhausted, so it covers both the equal-length loop (lines 74-81) and the
common-prefix loop (lines 88-95). -/
def memcmpCommon : List Nat → List Nat → Int
  | a :: as, b :: bs =>
    if a < b then AHasPrecedence
    else if b < a then BHasPrecedence
    else memcmpCommon as bs
  | _, _ => Equal

/-- The raw-value (non-prefix) branch of `CompareFlowSpecKey`
(ordering.go lines 67-103): equal lengths compare byte by byte; unequal
lengths compare up to the common length, then the longer slice wins; the
trailing `return BHasPrecedence` (line 102) is kept as the final `else`. -/
def compareRawPos (araw braw : List Nat) : Int :=
  if araw.length = braw.length then
    memcmpCommon araw braw
  else if memcmpCommon araw braw ≠ 0 then memcmpCommon araw braw
  else if araw.length > braw.length then AHasPrecedence
  else if braw.length > araw.length then BHasPrecedence
  else BHasPrecedence

/-- The prefix branch of `CompareFlowSpecKey` (ordering.go lines 42-66):
longer bit-length wins when the shorter prefix contains the longer prefix's
address; equal bit-lengths compare the addresses; otherwise no decision
(`Equal`, the outer walk proceeds). -/
def comparePrefixPos (ap bp : Prefix) : Int :=
  if ap.Bits > bp.Bits ∧ bp.Contains ap.Addr then AHasPrecedence
  else if bp.Bits > ap.Bits ∧ ap.Contains bp.Addr then BHasPrecedence
  else if ap.Bits = bp.Bits then
    if ap.Addr.Less bp.Addr then AHasPrecedence
    else if bp.Addr.Less ap.Addr then BHasPrecedence
    else Equal
  else Equal

/-- One iteration of the position walk of `CompareFlowSpecKey`
(ordering.go lines 30-105): smaller type wins, then the prefix branch or
the raw branch; `Equal` means no decision at this position. -/
def comparePos (a b : FSComponent) : Int :=
  if a.type < b.type then AHasPrecedence
  else if b.type < a.type then BHasPrecedence
  else if a.type = ComponentTypeDestinationPrefix ∨ a.type = ComponentTypeSourcePrefix then
    comparePrefixPos a.Prefix b.Prefix
  else compareRawPos a.Raw b.Raw

/-- The position walk of `CompareFlowSpecKey`: the first position with a
decision returns it, otherwise `Equal` after the walk (ordering.go line 107).
It is only reached with lists of equal length. -/
def compareComponents : List FSComponent → List FSComponent → Int
  | a :: as, b :: bs =>
    if comparePos a b ≠ 0 then comparePos a b else compareComponents as bs
  | _, _ => Equal

/-- ordering.go: `CompareFlowSpecKey` — more components wins outright
(lines 23-28), otherwise the position walk. -/
def CompareFlowSpecKey (a b : FSComponentList) : Int :=
  if a.Components.length > b.Components.length then AHasPrecedence
  else if b.Components.length > a.Components.length then BHasPrecedence
  else compareComponents a.Components b.Components

/-- Strict ascent of a list of naturals: each element is smaller than the
next. -/
def strictAsc : List Nat → Bool
  | x :: y :: t => decide (x < y) && strictAsc (y :: t)
  | _ => true

/-- The §3 invariant assumed of encoder-produced component lists: entries
ordered by ascending type value with at most one entry per type, i.e. the
type sequence is strictly increasing. -/
def Invariant (l : FSComponentList) : Prop :=
  strictAsc (l.Components.map fun c => c.type) = true

/-- A component list containing only raw-value (non-prefix) components. -/
def RawOnly (l : FSComponentList) : Prop :=
  ∀ c ∈ l.Components,
    c.type ≠ ComponentTypeDestinationPrefix ∧ c.type ≠ ComponentTypeSourcePrefix

instance (l : FSComponentList) : Decidable (Invariant l) :=
  inferInstanceAs (Decidable (strictAsc (l.Components.map fun c : FSComponent => c.type) = true))

instance (l : FSComponentList) : Decidable (RawOnly l) :=
  inferInstanceAs (Decidable (∀ c ∈ l.Components,
    c.type ≠ ComponentTypeDestinationPrefix ∧ c.type ≠ ComponentTypeSourcePrefix))

/-! ### Basic lemmas about the comparator: value range, antisymmetry, reflexivity -/

theorem memcmpCommon_range : ∀ x y : List Nat,
    memcmpCommon x y = -1 ∨ memcmpCommon x y = 0 ∨ memcmpCommon x y = 1
  | [], [] => by simp [memcmpCommon, Equal]
  | _ :: _, [] => by simp [memcmpCommon, Equal]
  | [], _ :: _ => by simp [memcmpCommon, Equal]
  | a :: as, b :: bs => by
    by_cases h1 : a < b
    · simp [memcmpCommon, h1, AHasPrecedence]
    · by_cases h2 : b < a
      · simp [memcmpCommon, h1, h2, BHasPrecedence]
      · simpa [memcmpCommon, h1, h2] using memcmpCommon_range as bs

theorem memcmpCommon_antisymm : ∀ x y : List Nat, memcmpCommon x y = -memcmpCommon y x
  | [], [] => by simp [memcmpCommon, Equal]
  | _ :: _, [] => by simp [memcmpCommon, Equal]
  | [], _ :: _ => by simp [memcmpCommon, Equal]
  | a :: as, b :: bs => by
    by_cases h1 : a < b
    · have h2 : ¬ b < a := by omega
      simp [memcmpCommon, h1, h2, AHasPrecedence, BHasPrecedence]
    · by_cases h2 : b < a
      · simp [memcmpCommon, h1, h2, AHasPrecedence, BHasPrecedence]
      · simp [memcmpCommon, h1, h2, memcmpCommon_antisymm as bs]

theorem memcmpCommon_refl : ∀ x : List Nat, memcmpCommon x x = Equal
  | [] => by simp [memcmpCommon]
  | a :: as => by simp [memcmpCommon, memcmpCommon_refl as]

theorem compareRawPos_antisymm (x y : List Nat) : compareRawPos x y = -compareRawPos y x := by
  have hx := memcmpCommon_antisymm x y
  unfold compareRawPos
  by_cases h : x.length = y.length
  · rw [if_pos h, if_pos h.symm]
    exact hx
  · have h' : ¬ y.length = x.length := fun e => h e.symm
    rw [if_neg h, if_neg h']
    rcases memcmpCommon_range y x with hr | hr | hr <;> rw [hr] at hx <;> norm_num at hx
    · rw [if_pos (by rw [hx]; norm_num : memcmpCommon x y ≠ 0),
        if_pos (by rw [hr]; norm_num : memcmpCommon y x ≠ 0), hx, hr]
      norm_num
    · rw [if_neg (by rw [hx]; norm_num : ¬ memcmpCommon x y ≠ 0),
        if_neg (by rw [hr]; norm_num : ¬ memcmpCommon y x ≠ 0)]
      by_cases hgt : x.length > y.length
      · have hgt2 : ¬ y.length > x.length := by omega
        rw [if_pos hgt, if_neg hgt2, if_pos hgt]
        norm_num [AHasPrecedence, BHasPrecedence]
      · have hgt2 : y.length > x.length := by omega
        rw [if_neg hgt, if_pos hgt2, if_pos hgt2]
        norm_num [AHasPrecedence, BHasPrecedence]
    · rw [if_pos (by rw [hx]; norm_num : memcmpCommon x y ≠ 0),
        if_pos (by rw [hr]; norm_num : memcmpCommon y x ≠ 0), hx, hr]

theorem compareRawPos_refl (x : List Nat) : compareRawPos x x = Equal := by
  simp [compareRawPos, memcmpCommon_refl]

theorem Addr.Less_asymm {a b : Addr} (h : a.Less b = true) : b.Less a = false := by
  cases a with
  | mk a6 av =>
    cases b with
    | mk b6 bv => cases a6 <;> cases b6 <;> simp_all [Addr.Less] <;> omega

theorem Addr.Less_irrefl (a : Addr) : a.Less a = false := by
  cases a with
  | mk a6 av => simp [Addr.Less]

theorem comparePrefixPos_antisymm (p q : Prefix) :
    comparePrefixPos p q = -comparePrefixPos q p := by
  unfold comparePrefixPos
  rcases Nat.lt_trichotomy p.Bits q.Bits with h | h | h
  · have h1 : ¬ (p.Bits > q.Bits ∧ q.Contains p.Addr = true) := fun hc => absurd hc.1 (by omega)
    have h3 : ¬ p.Bits = q.Bits := by omega
    have h3' : ¬ q.Bits = p.Bits := by omega
    by_cases hc : p.Contains q.Addr = true
    · have h2 : q.Bits > p.Bits ∧ p.Contains q.Addr = true := ⟨h, hc⟩
      rw [if_neg h1, if_pos h2, if_pos h2]
      norm_num [AHasPrecedence, BHasPrecedence]
    · have h2 : ¬ (q.Bits > p.Bits ∧ p.Contains q.Addr = true) := fun hcc => absurd hcc.2 hc
      rw [if_neg h1, if_neg h2, if_neg h3, if_neg h2, if_neg h1, if_neg h3']
      norm_num [Equal]
  · have h1 : ¬ (p.Bits > q.Bits ∧ q.Contains p.Addr = true) := fun hc => absurd hc.1 (by omega)
    have h2 : ¬ (q.Bits > p.Bits ∧ p.Contains q.Addr = true) := fun hc => absurd hc.1 (by omega)
    by_cases hL : p.Addr.Less q.Addr = true
    · have hL2 : ¬ q.Addr.Less p.Addr = true := by
        rw [Addr.Less_asymm hL]
        exact Bool.false_ne_true
      rw [if_neg h1, if_neg h2, if_pos h, if_pos hL, if_neg h2, if_neg h1, if_pos h.symm,
        if_neg hL2, if_pos hL]
      norm_num [AHasPrecedence, BHasPrecedence]
    · by_cases hL2 : q.Addr.Less p.Addr = true
      · rw [if_neg h1, if_neg h2, if_pos h, if_neg hL, if_pos hL2, if_neg h2, if_neg h1,
          if_pos h.symm, if_pos hL2]
        norm_num [AHasPrecedence, BHasPrecedence]
      · rw [if_neg h1, if_neg h2, if_pos h, if_neg hL, if_neg hL2, if_neg h2, if_neg h1,
          if_pos h.symm, if_neg hL2, if_neg hL]
        norm_num [Equal]
  · have h1 : ¬ (q.Bits > p.Bits ∧ p.Contains q.Addr = true) := fun hc => absurd hc.1 (by omega)
    have h3 : ¬ p.Bits = q.Bits := by omega
    have h3' : ¬ q.Bits = p.Bits := by omega
    by_cases hc : q.Contains p.Addr = true
    · have h2 : p.Bits > q.Bits ∧ q.Contains p.Addr = true := ⟨h, hc⟩
      rw [if_pos h2, if_neg h1, if_pos h2]
      norm_num [AHasPrecedence, BHasPrecedence]
    · have h2 : ¬ (p.Bits > q.Bits ∧ q.Contains p.Addr = true) := fun hcc => absurd hcc.2 hc
      rw [if_neg h2, if_neg h1, if_neg h3, if_neg h1, if_neg h2, if_neg h3']
      norm_num [Equal]

theorem comparePrefixPos_refl (p : Prefix) : comparePrefixPos p p = Equal := by
  simp [comparePrefixPos, Addr.Less_irrefl]

theorem comparePos_antisymm (a b : FSComponent) : comparePos a b = -comparePos b a := by
  unfold comparePos
  rcases Nat.lt_trichotomy a.type b.type with h | h | h
  · have h2 : ¬ b.type < a.type := by omega
    rw [if_pos h, if_neg h2, if_pos h]
    norm_num [AHasPrecedence, BHasPrecedence]
  · have h1 : ¬ a.type < b.type := by omega
    have h2 : ¬ b.type < a.type := by omega
    rw [if_neg h1, if_neg h2, if_neg h2, if_neg h1]
    by_cases hp : a.type = ComponentTypeDestinationPrefix ∨ a.type = ComponentTypeSourcePrefix
    · have hp' : b.type = ComponentTypeDestinationPrefix ∨
          b.type = ComponentTypeSourcePrefix := by rw [← h]; exact hp
      rw [if_pos hp, if_pos hp']
      exact comparePrefixPos_antisymm _ _
    · have hp' : ¬ (b.type = ComponentTypeDestinationPrefix ∨
          b.type = ComponentTypeSourcePrefix) := by rw [← h]; exact hp
      rw [if_neg hp, if_neg hp']
      exact compareRawPos_antisymm _ _
  · have h1 : ¬ a.type < b.type := by omega
    rw [if_neg h1, if_pos h, if_pos h]
    norm_num [AHasPrecedence, BHasPrecedence]

theorem comparePos_refl (a : FSComponent) : comparePos a a = Equal := by
  by_cases hp : a.type = ComponentTypeDestinationPrefix ∨ a.type = ComponentTypeSourcePrefix <;>
    simp [comparePos, hp, comparePrefixPos_refl, compareRawPos_refl]

theorem compareComponents_antisymm : ∀ x y : List FSComponent,
    compareComponents x y = -compareComponents y x
  | [], [] => by simp [compareComponents, Equal]
  | _ :: _, [] => by simp [compareComponents, Equal]
  | [], _ :: _ => by simp [compareComponents, Equal]
  | a :: as, b :: bs => by
    simp only [compareComponents]
    rw [comparePos_antisymm a b]
    by_cases hc : comparePos b a = 0
    · have e1 : ¬ (-comparePos b a ≠ 0) := by rw [hc]; norm_num
      have e2 : ¬ (comparePos b a ≠ 0) := by rw [hc]; norm_num
      rw [if_neg e1, if_neg e2]
      exact compareComponents_antisymm as bs
    · have e1 : -comparePos b a ≠ 0 := by omega
      rw [if_pos e1, if_pos hc]

theorem compareComponents_refl : ∀ x : List FSComponent, compareComponents x x = Equal
  | [] => by simp [compareComponents]
  | a :: as => by
    simp [compareComponents, comparePos_refl, compareComponents_refl as, Equal]

theorem compare_antisymm (a b : FSComponentList) :
    CompareFlowSpecKey a b = -CompareFlowSpecKey b a := by
  unfold CompareFlowSpecKey
  rcases Nat.lt_trichotomy a.Components.length b.Components.length with h | h | h
  · have h2 : ¬ a.Components.length > b.Components.length := by omega
    simp [h, h2, AHasPrecedence, BHasPrecedence]
  · have h1 : ¬ a.Components.length > b.Components.length := by omega
    have h2 : ¬ b.Components.length > a.Components.length := by omega
    rw [if_neg h1, if_neg h2, if_neg h2, if_neg h1]
    exact compareComponents_antisymm _ _
  · have h2 : ¬ b.Components.length > a.Components.length := by omega
    simp [h, h2, AHasPrecedence, BHasPrecedence]

theorem compare_refl (a : FSComponentList) : CompareFlowSpecKey a a = Equal := by
  simp [CompareFlowSpecKey, compareComponents_refl]

theorem compareRawPos_range (x y : List Nat) :
    compareRawPos x y = -1 ∨ compareRawPos x y = 0 ∨ compareRawPos x y = 1 := by
  unfold compareRawPos
  split_ifs
  · exact memcmpCommon_range x y
  · exact memcmpCommon_range x y
  · simp [AHasPrecedence]
  · simp [BHasPrecedence]
  · simp [BHasPrecedence]

theorem comparePrefixPos_range (p q : Prefix) :
    comparePrefixPos p q = -1 ∨ comparePrefixPos p q = 0 ∨ comparePrefixPos p q = 1 := by
  unfold comparePrefixPos
  split_ifs <;> simp [AHasPrecedence, BHasPrecedence, Equal]

theorem comparePos_range (a b : FSComponent) :
    comparePos a b = -1 ∨ comparePos a b = 0 ∨ comparePos a b = 1 := by
  unfold comparePos
  split_ifs
  · simp [AHasPrecedence]
  · simp [BHasPrecedence]
  · exact comparePrefixPos_range _ _
  · exact compareRawPos_range _ _

theorem compareComponents_range : ∀ x y : List FSComponent,
    compareComponents x y = -1 ∨ compareComponents x y = 0 ∨ compareComponents x y = 1
  | [], [] => by simp [compareComponents, Equal]
  | _ :: _, [] => by simp [compareComponents, Equal]
  | [], _ :: _ => by simp [compareComponents, Equal]
  | a :: as, b :: bs => by
    simp only [compareComponents]
    split_ifs
    · exact comparePos_range a b
    · exact compareComponents_range as bs

theorem compare_range (a b : FSComponentList) :
    CompareFlowSpecKey a b = -1 ∨ CompareFlowSpecKey a b = 0 ∨ CompareFlowSpecKey a b = 1 := by
  unfold CompareFlowSpecKey
  split_ifs
  · simp [AHasPrecedence]
  · simp [BHasPrecedence]
  · exact compareComponents_range _ _

/-! ### The instrumented comparator for the reachability question (claim C9):
identical to `CompareFlowSpecKey` except that the trailing
`return BHasPrecedence` of ordering.go line 102 returns the sentinel value 2,
which is not among the three int8 result constants. -/

def compareRawPosMarked (araw braw : List Nat) : Int :=
  if araw.length = braw.length then
    memcmpCommon araw braw
  else if memcmpCommon araw braw ≠ 0 then memcmpCommon araw braw
  else if araw.length > braw.length then AHasPrecedence
  else if braw.length > araw.length then BHasPrecedence
  else 2

def comparePosMarked (a b : FSComponent) : Int :=
  if a.type < b.type then AHasPrecedence
  else if b.type < a.type then BHasPrecedence
  else if a.type = ComponentTypeDestinationPrefix ∨ a.type = ComponentTypeSourcePrefix then
    comparePrefixPos a.Prefix b.Prefix
  else compareRawPosMarked a.Raw b.Raw

def compareComponentsMarked : List FSComponent → List FSComponent → Int
  | a :: as, b :: bs =>
    if comparePosMarked a b ≠ 0 then comparePosMarked a b
    else compareComponentsMarked as bs
  | _, _ => Equal

def CompareFlowSpecKeyMarked (a b : FSComponentList) : Int :=
  if a.Components.length > b.Components.length then AHasPrecedence
  else if b.Components.length > a.Components.length then BHasPrecedence
  else compareComponentsMarked a.Components b.Components

theorem compareRawPosMarked_eq (x y : List Nat) :
    compareRawPosMarked x y = compareRawPos x y := by
  unfold compareRawPosMarked compareRawPos
  split_ifs <;> first | rfl | (exfalso; omega)

theorem comparePosMarked_eq (a b : FSComponent) : comparePosMarked a b = comparePos a b := by
  unfold comparePosMarked comparePos
  split_ifs <;> first | rfl | exact compareRawPosMarked_eq _ _

theorem compareComponentsMarked_eq : ∀ x y : List FSComponent,
    compareComponentsMarked x y = compareComponents x y
  | [], [] => rfl
  | _ :: _, [] => rfl
  | [], _ :: _ => rfl
  | a :: as, b :: bs => by
    simp only [compareComponentsMarked, compareComponents, comparePosMarked_eq a b]
    split_ifs
    · rfl
    · exact compareComponentsMarked_eq as bs

theorem compareFlowSpecKeyMarked_eq (a b : FSComponentList) :
    CompareFlowSpecKeyMarked a b = CompareFlowSpecKey a b := by
  unfold CompareFlowSpecKeyMarked CompareFlowSpecKey
  split_ifs <;> first | rfl | exact compareComponentsMarked_eq _ _

/-! ### Transitivity analysis for raw-value components (claim C1).
`rawCmp` is a head-recursive reformulation of `compareRawPos`, proved equal
to it; on it, strict transitivity and the equality characterisation are
straightforward inductions. -/

def rawCmp : List Nat → List Nat → Int
  | [], [] => Equal
  | _ :: _, [] => AHasPrecedence
  | [], _ :: _ => BHasPrecedence
  | a :: as, b :: bs =>
    if a < b then AHasPrecedence
    else if b < a then BHasPrecedence
    else rawCmp as bs

theorem compareRawPos_eq_rawCmp : ∀ x y : List Nat, compareRawPos x y = rawCmp x y
  | [], [] => by simp [compareRawPos, memcmpCommon, rawCmp]
  | a :: as, [] => by
    simp [compareRawPos, memcmpCommon, rawCmp, Equal, AHasPrecedence]
  | [], b :: bs => by
    simp [compareRawPos, memcmpCommon, rawCmp, Equal, BHasPrecedence]
  | a :: as, b :: bs => by
    by_cases h1 : a < b
    · have hm : memcmpCommon (a :: as) (b :: bs) = AHasPrecedence := by
        simp [memcmpCommon, h1]
      unfold compareRawPos
      rw [hm]
      simp [rawCmp, h1, AHasPrecedence]
    · by_cases h2 : b < a
      · have hm : memcmpCommon (a :: as) (b :: bs) = BHasPrecedence := by
          simp [memcmpCommon, h1, h2]
        unfold compareRawPos
        rw [hm]
        simp [rawCmp, h1, h2, BHasPrecedence]
      · have hab : a = b := by omega
        subst hab
        have hm : memcmpCommon (a :: as) (a :: bs) = memcmpCommon as bs := by
          simp [memcmpCommon]
        have hr : rawCmp (a :: as) (a :: bs) = rawCmp as bs := by
          simp [rawCmp]
        rw [hr, ← compareRawPos_eq_rawCmp as bs]
        unfold compareRawPos
        rw [hm]
        by_cases hl : as.length = bs.length
        · have hl1 : (a :: as).length = (a :: bs).length := by
            simp only [List.length_cons]
            omega
          rw [if_pos hl1, if_pos hl]
        · have hl1 : ¬ ((a :: as).length = (a :: bs).length) := by
            simp only [List.length_cons]
            omega
          rw [if_neg hl1, if_neg hl]
          by_cases hm0 : memcmpCommon as bs ≠ 0
          · rw [if_pos hm0, if_pos hm0]
          · rw [if_neg hm0, if_neg hm0]
            by_cases hgt : as.length > bs.length
            · have hg1 : (a :: as).length > (a :: bs).length := by
                simp only [List.length_cons]
                omega
              rw [if_pos hg1, if_pos hgt]
            · have hg1 : ¬ ((a :: as).length > (a :: bs).length) := by
                simp only [List.length_cons]
                omega
              have hlt : bs.length > as.length := by omega
              have hg2 : (a :: bs).length > (a :: as).length := by
                simp only [List.length_cons]
                omega
              rw [if_neg hg1, if_neg hgt, if_pos hg2, if_pos hlt]

theorem rawCmp_eq_zero : ∀ x y : List Nat, rawCmp x y = 0 ↔ x = y
  | [], [] => by simp [rawCmp, Equal]
  | _ :: _, [] => by simp [rawCmp, AHasPrecedence]
  | [], _ :: _ => by simp [rawCmp, BHasPrecedence]
  | a :: as, b :: bs => by
    by_cases h1 : a < b
    · have hne : a ≠ b := by omega
      simp [rawCmp, h1, AHasPrecedence, hne]
    · by_cases h2 : b < a
      · have hne : a ≠ b := by omega
        simp [rawCmp, h1, h2, BHasPrecedence, hne]
      · have hab : a = b := by omega
        subst hab
        simp [rawCmp, rawCmp_eq_zero as bs]

theorem rawCmp_trans_neg : ∀ x y z : List Nat,
    rawCmp x y = -1 → rawCmp y z = -1 → rawCmp x z = -1
  | x, [], z => by
    intro h1 h2
    cases z <;> simp [rawCmp, Equal, BHasPrecedence] at h2
  | [], _ :: _, z => by
    intro h1 h2
    simp [rawCmp, BHasPrecedence] at h1
  | _ :: _, _ :: _, [] => by
    intro h1 h2
    simp [rawCmp, AHasPrecedence]
  | a :: as, b :: bs, c :: cs => by
    intro h1 h2
    simp only [rawCmp] at h1 h2 ⊢
    by_cases hab : a < b
    · by_cases hbc : b < c
      · have hac : a < c := by omega
        simp [hac, AHasPrecedence]
      · by_cases hcb : c < b
        · rw [if_neg hbc, if_pos hcb] at h2
          exact absurd h2 (by norm_num [BHasPrecedence])
        · have hbc2 : b = c := by omega
          subst hbc2
          simp [hab, AHasPrecedence]
    · by_cases hba : b < a
      · rw [if_neg hab, if_pos hba] at h1
        exact absurd h1 (by norm_num [BHasPrecedence])
      · have hab2 : a = b := by omega
        subst hab2
        rw [if_neg hab, if_neg hba] at h1
        by_cases hac : a < c
        · simp [hac, AHasPrecedence]
        · by_cases hca : c < a
          · rw [if_neg hac, if_pos hca] at h2
            exact absurd h2 (by norm_num [BHasPrecedence])
          · rw [if_neg hac, if_neg hca] at h2 ⊢
            exact rawCmp_trans_neg as bs cs h1 h2

/-- The data a raw-value position is compared on: the type tag and the bytes. -/
def rawKey (c : FSComponent) : Nat × List Nat := (c.type, c.Raw)

/-- The per-position comparator restricted to raw-value components:
type order first, then `rawCmp` on the bytes. -/
def keyCmp (a b : FSComponent) : Int :=
  if a.type < b.type then AHasPrecedence
  else if b.type < a.type then BHasPrecedence
  else rawCmp a.Raw b.Raw

theorem comparePos_eq_keyCmp (a b : FSComponent)
    (ha : a.type ≠ ComponentTypeDestinationPrefix ∧ a.type ≠ ComponentTypeSourcePrefix) :
    comparePos a b = keyCmp a b := by
  unfold comparePos keyCmp
  split_ifs with g1 g2 g3
  · rfl
  · rfl
  · rcases g3 with h | h
    · exact absurd h ha.1
    · exact absurd h ha.2
  · exact compareRawPos_eq_rawCmp _ _

theorem keyCmp_zero (a b : FSComponent) :
    keyCmp a b = 0 ↔ rawKey a = rawKey b := by
  unfold keyCmp rawKey
  split_ifs with g1 g2
  · simp only [AHasPrecedence, Prod.mk.injEq]
    constructor
    · intro h
      norm_num at h
    · rintro ⟨h, _⟩
      omega
  · simp only [BHasPrecedence, Prod.mk.injEq]
    constructor
    · intro h
      norm_num at h
    · rintro ⟨h, _⟩
      omega
  · have ht : a.type = b.type := by omega
    rw [rawCmp_eq_zero]
    simp [ht]

theorem keyCmp_congr_left (a b x : FSComponent) (h : rawKey a = rawKey b) :
    keyCmp a x = keyCmp b x := by
  have h1 : a.type = b.type := congrArg Prod.fst h
  have h2 : a.Raw = b.Raw := congrArg Prod.snd h
  unfold keyCmp
  rw [h1, h2]

theorem keyCmp_congr_right (x a b : FSComponent) (h : rawKey a = rawKey b) :
    keyCmp x a = keyCmp x b := by
  have h1 : a.type = b.type := congrArg Prod.fst h
  have h2 : a.Raw = b.Raw := congrArg Prod.snd h
  unfold keyCmp
  rw [h1, h2]

theorem keyCmp_trans_neg (a b c : FSComponent)
    (h1 : keyCmp a b = -1) (h2 : keyCmp b c = -1) : keyCmp a c = -1 := by
  unfold keyCmp at h1 h2 ⊢
  by_cases hab : a.type < b.type
  · by_cases hbc : b.type < c.type
    · have hac : a.type < c.type := by omega
      simp [hac, AHasPrecedence]
    · by_cases hcb : c.type < b.type
      · rw [if_neg hbc, if_pos hcb] at h2
        exact absurd h2 (by norm_num [BHasPrecedence])
      · have he : b.type = c.type := by omega
        have hac : a.type < c.type := by omega
        simp [hac, AHasPrecedence]
  · by_cases hba : b.type < a.type
    · rw [if_neg hab, if_pos hba] at h1
      exact absurd h1 (by norm_num [BHasPrecedence])
    · have he : a.type = b.type := by omega
      rw [if_neg hab, if_neg hba] at h1
      by_cases hac : a.type < c.type
      · simp [hac, AHasPrecedence]
      · by_cases hca : c.type < a.type
        · have hbc : ¬ b.type < c.type := by omega
          have hcb : c.type < b.type := by omega
          rw [if_neg hbc, if_pos hcb] at h2
          exact absurd h2 (by norm_num [BHasPrecedence])
        · have hbc : ¬ b.type < c.type := by omega
          have hcb : ¬ c.type < b.type := by omega
          rw [if_neg hbc, if_neg hcb] at h2
          rw [if_neg hac, if_neg hca]
          exact rawCmp_trans_neg _ _ _ h1 h2

/-- The position walk, specialised to the key comparator for raw-value
components. -/
def ccKey : List FSComponent → List FSComponent → Int
  | a :: as, b :: bs => if keyCmp a b ≠ 0 then keyCmp a b else ccKey as bs
  | _, _ => Equal

theorem compareComponents_eq_ccKey : ∀ la lb : List FSComponent,
    (∀ c ∈ la, c.type ≠ ComponentTypeDestinationPrefix ∧ c.type ≠ ComponentTypeSourcePrefix) →
    compareComponents la lb = ccKey la lb
  | [], [], _ => rfl
  | _ :: _, [], _ => rfl
  | [], _ :: _, _ => rfl
  | a :: as, b :: bs, h => by
    have ha := h a (by simp)
    have has : ∀ c ∈ as, c.type ≠ ComponentTypeDestinationPrefix ∧
        c.type ≠ ComponentTypeSourcePrefix := fun c hc => h c (by simp [hc])
    simp only [compareComponents, ccKey, comparePos_eq_keyCmp a b ha]
    split_ifs
    · rfl
    · exact compareComponents_eq_ccKey as bs has

theorem ccKey_zero : ∀ la lb : List FSComponent, la.length = lb.length →
    (ccKey la lb = 0 ↔ la.map rawKey = lb.map rawKey)
  | [], [], _ => by simp [ccKey, Equal]
  | a :: as, b :: bs, h => by
    have hlen : as.length = bs.length := by
      simp only [List.length_cons] at h
      omega
    simp only [ccKey, List.map_cons, List.cons.injEq]
    split_ifs with g
    · constructor
      · intro hz
        exact absurd hz g
      · rintro ⟨h1, _⟩
        exact absurd ((keyCmp_zero a b).mpr h1) g
    · have hk : rawKey a = rawKey b := (keyCmp_zero a b).mp (by omega)
      rw [ccKey_zero as bs hlen]
      simp [hk]

theorem ccKey_congr_left : ∀ la lb x : List FSComponent,
    la.map rawKey = lb.map rawKey → ccKey la x = ccKey lb x
  | [], [], _, _ => rfl
  | a :: as, b :: bs, x, h => by
    simp only [List.map_cons, List.cons.injEq] at h
    cases x with
    | nil => rfl
    | cons c cs =>
      simp only [ccKey, keyCmp_congr_left a b c h.1]
      split_ifs
      · rfl
      · exact ccKey_congr_left as bs cs h.2
  | [], _ :: _, _, h => by simp at h
  | _ :: _, [], _, h => by simp at h

theorem ccKey_congr_right : ∀ x la lb : List FSComponent,
    la.map rawKey = lb.map rawKey → ccKey x la = ccKey x lb
  | x, [], [], _ => by
    cases x <;> rfl
  | x, a :: as, b :: bs, h => by
    simp only [List.map_cons, List.cons.injEq] at h
    cases x with
    | nil => rfl
    | cons c cs =>
      simp only [ccKey, keyCmp_congr_right c a b h.1]
      split_ifs
      · rfl
      · exact ccKey_congr_right cs as bs h.2
  | _, [], _ :: _, h => by simp at h
  | _, _ :: _, [], h => by simp at h

theorem ccKey_trans_neg : ∀ la lb lc : List FSComponent,
    ccKey la lb = -1 → ccKey lb lc = -1 → ccKey la lc = -1
  | la, [], lc => by
    intro h1 h2
    cases lc <;> simp [ccKey, Equal] at h2
  | [], _ :: _, lc => by
    intro h1 h2
    simp [ccKey, Equal] at h1
  | _ :: _, _ :: _, [] => by
    intro h1 h2
    simp [ccKey, Equal] at h2
  | a :: as, b :: bs, c :: cs => by
    intro h1 h2
    simp only [ccKey] at h1 h2 ⊢
    by_cases g1 : keyCmp a b = 0
    · rw [if_neg (by rw [g1]; norm_num)] at h1
      have hk := (keyCmp_zero a b).mp g1
      rw [keyCmp_congr_left a b c hk]
      by_cases g2 : keyCmp b c = 0
      · rw [if_neg (by rw [g2]; norm_num)] at h2
        rw [if_neg (by rw [g2]; norm_num)]
        exact ccKey_trans_neg as bs cs h1 h2
      · rw [if_pos g2] at h2
        rw [if_pos (by rw [h2]; norm_num : keyCmp b c ≠ 0), h2]
    · rw [if_pos g1] at h1
      by_cases g2 : keyCmp b c = 0
      · have hk := (keyCmp_zero b c).mp g2
        have hac : keyCmp a c = -1 := by
          rw [← keyCmp_congr_right a b c hk]
          exact h1
        rw [if_pos (by rw [hac]; norm_num : keyCmp a c ≠ 0), hac]
      · rw [if_pos g2] at h2
        have hac := keyCmp_trans_neg a b c h1 h2
        rw [if_pos (by rw [hac]; norm_num : keyCmp a c ≠ 0), hac]

theorem compare_zero_len (x y : FSComponentList) (h : CompareFlowSpecKey x y = 0) :
    x.Components.length = y.Components.length := by
  unfold CompareFlowSpecKey at h
  by_cases g1 : x.Components.length > y.Components.length
  · rw [if_pos g1] at h
    norm_num [AHasPrecedence] at h
  · by_cases g2 : y.Components.length > x.Components.length
    · rw [if_neg g1, if_pos g2] at h
      norm_num [BHasPrecedence] at h
    · omega

theorem compare_rawOnly_trans (a b c : FSComponentList)
    (ha : RawOnly a) (hb : RawOnly b) (hc : RawOnly c)
    (h1 : CompareFlowSpecKey a b ≤ 0) (h2 : CompareFlowSpecKey b c ≤ 0) :
    CompareFlowSpecKey a c ≤ 0 ∧
      (CompareFlowSpecKey a c = 0 ↔
        CompareFlowSpecKey a b = 0 ∧ CompareFlowSpecKey b c = 0) := by
  have hba : ¬ b.Components.length > a.Components.length := by
    intro hgt
    have hv : CompareFlowSpecKey a b = 1 := by
      unfold CompareFlowSpecKey
      rw [if_neg (by omega), if_pos hgt]
      rfl
    omega
  have hcb : ¬ c.Components.length > b.Components.length := by
    intro hgt
    have hv : CompareFlowSpecKey b c = 1 := by
      unfold CompareFlowSpecKey
      rw [if_neg (by omega), if_pos hgt]
      rfl
    omega
  by_cases hac : a.Components.length > c.Components.length
  · have hval : CompareFlowSpecKey a c = -1 := by
      unfold CompareFlowSpecKey
      rw [if_pos hac]
      rfl
    refine ⟨by omega, ?_⟩
    rw [hval]
    constructor
    · intro h
      norm_num at h
    · rintro ⟨z1, z2⟩
      have e1 := compare_zero_len a b z1
      have e2 := compare_zero_len b c z2
      omega
  · have hca : ¬ c.Components.length > a.Components.length := by omega
    have eab : a.Components.length = b.Components.length := by omega
    have ebc : b.Components.length = c.Components.length := by omega
    have fab : CompareFlowSpecKey a b = ccKey a.Components b.Components := by
      unfold CompareFlowSpecKey
      rw [if_neg (by omega), if_neg hba]
      exact compareComponents_eq_ccKey _ _ ha
    have fbc : CompareFlowSpecKey b c = ccKey b.Components c.Components := by
      unfold CompareFlowSpecKey
      rw [if_neg (by omega), if_neg hcb]
      exact compareComponents_eq_ccKey _ _ hb
    have fac : CompareFlowSpecKey a c = ccKey a.Components c.Components := by
      unfold CompareFlowSpecKey
      rw [if_neg hac, if_neg hca]
      exact compareComponents_eq_ccKey _ _ ha
    have r1 := compare_range a b
    have r2 := compare_range b c
    rw [fab] at r1 h1
    rw [fbc] at r2 h2
    rw [fab, fbc, fac]
    have z1 : ccKey a.Components b.Components = -1 ∨ ccKey a.Components b.Components = 0 := by
      omega
    have z2 : ccKey b.Components c.Components = -1 ∨ ccKey b.Components c.Components = 0 := by
      omega
    rcases z1 with z1 | z1 <;> rcases z2 with z2 | z2
    · have hv := ccKey_trans_neg _ _ _ z1 z2
      rw [hv, z1, z2]
      refine ⟨by omega, ?_⟩
      constructor
      · intro h
        norm_num at h
      · rintro ⟨h, _⟩
        norm_num at h
    · have hk2 := (ccKey_zero _ _ ebc).mp z2
      have hv : ccKey a.Components c.Components = -1 := by
        rw [← ccKey_congr_right _ _ _ hk2]
        exact z1
      rw [hv, z1, z2]
      refine ⟨by omega, ?_⟩
      constructor
      · intro h
        norm_num at h
      · rintro ⟨h, _⟩
        norm_num at h
    · have hk1 := (ccKey_zero _ _ eab).mp z1
      have hv : ccKey a.Components c.Components = -1 := by
        rw [ccKey_congr_left _ _ _ hk1]
        exact z2
      rw [hv, z1, z2]
      refine ⟨by omega, ?_⟩
      constructor
      · intro h
        norm_num at h
      · rintro ⟨_, h⟩
        norm_num at h
    · have hk1 := (ccKey_zero _ _ eab).mp z1
      have hv : ccKey a.Components c.Components = 0 := by
        rw [ccKey_congr_left _ _ _ hk1]
        exact z2
      rw [hv, z1, z2]
      exact ⟨by omega, by simp⟩

/-- When a position yields no decision, the walk proceeds to the next
position. -/
theorem walk_proceeds (a b : FSComponent) (as bs : List FSComponent)
    (h : comparePos a b = 0) :
    compareComponents (a :: as) (b :: bs) = compareComponents as bs := by
  simp only [compareComponents]
  rw [if_neg (by rw [h]; norm_num)]

theorem rawCmp_append_head : ∀ (p : List Nat) (x y : Nat) (xs ys : List Nat), x < y →
    rawCmp (p ++ x :: xs) (p ++ y :: ys) = -1
  | [], x, y, xs, ys, h => by simp [rawCmp, h, AHasPrecedence]
  | a :: p, x, y, xs, ys, h => by
    simp only [List.cons_append, rawCmp, lt_irrefl, if_false]
    exact rawCmp_append_head p x y xs ys h

theorem rawCmp_append_longer : ∀ (p : List Nat) (z : Nat) (zs : List Nat),
    rawCmp (p ++ z :: zs) p = -1
  | [], z, zs => by simp [rawCmp, AHasPrecedence]
  | a :: p, z, zs => by
    simp only [List.cons_append, rawCmp, lt_irrefl, if_false]
    exact rawCmp_append_longer p z zs

theorem rawCmp_append_shorter : ∀ (p : List Nat) (z : Nat) (zs : List Nat),
    rawCmp p (p ++ z :: zs) = 1
  | [], z, zs => by simp [rawCmp, BHasPrecedence]
  | a :: p, z, zs => by
    simp only [List.cons_append, rawCmp, lt_irrefl, if_false]
    exact rawCmp_append_shorter p z zs

theorem comparePos_eq_rawCmp (a b : FSComponent)
    (hty : a.type = b.type)
    (hpt : ¬ (a.type = ComponentTypeDestinationPrefix ∨ a.type = ComponentTypeSourcePrefix)) :
    comparePos a b = rawCmp a.Raw b.Raw := by
  unfold comparePos
  rw [if_neg (by omega), if_neg (by omega), if_neg hpt]
  exact compareRawPos_eq_rawCmp _ _

theorem rawCmp_antisymm (x y : List Nat) : rawCmp x y = -rawCmp y x := by
  rw [← compareRawPos_eq_rawCmp, ← compareRawPos_eq_rawCmp]
  exact compareRawPos_antisymm x y

/-! ### The claims about the ordering component -/

/-- C1, counterexample: three single-component destination-prefix lists, each
satisfying the §3 invariant, on which `CompareFlowSpecKey` is not transitive:
128.0.0.0/2 vs 0.0.0.0/1 and 0.0.0.0/1 vs 192.0.0.0/2 are both Equal (the
disjoint-prefix walk yields no decision), yet 128.0.0.0/2 vs 192.0.0.0/2 is
AHasPrecedence; in particular Equal is not transitive under the invariant. -/
theorem C1_counterexample :
    Invariant ⟨[⟨1, ⟨⟨false, 2147483648⟩, 2⟩, []⟩]⟩ ∧
    Invariant ⟨[⟨1, ⟨⟨false, 0⟩, 1⟩, []⟩]⟩ ∧
    Invariant ⟨[⟨1, ⟨⟨false, 3221225472⟩, 2⟩, []⟩]⟩ ∧
    CompareFlowSpecKey ⟨[⟨1, ⟨⟨false, 2147483648⟩, 2⟩, []⟩]⟩
      ⟨[⟨1, ⟨⟨false, 0⟩, 1⟩, []⟩]⟩ = Equal ∧
    CompareFlowSpecKey ⟨[⟨1, ⟨⟨false, 0⟩, 1⟩, []⟩]⟩
      ⟨[⟨1, ⟨⟨false, 3221225472⟩, 2⟩, []⟩]⟩ = Equal ∧
    CompareFlowSpecKey ⟨[⟨1, ⟨⟨false, 2147483648⟩, 2⟩, []⟩]⟩
      ⟨[⟨1, ⟨⟨false, 3221225472⟩, 2⟩, []⟩]⟩ = AHasPrecedence := by
  decide

/-- C1 (amended): on component lists that satisfy the §3 invariant and
consist only of raw-value (non-prefix) components, `CompareFlowSpecKey` is
transitive: if `compare a b` and `compare b c` each yield AHasPrecedence or
Equal then so does `compare a c`, and `compare a c` is Equal exactly when
both are.  (As the counterexample shows, the unamended claim fails on
prefix components because of the disjoint-prefix non-decision.) -/
theorem C1_trans_rawOnly_amended (a b c : FSComponentList)
    (hIa : Invariant a) (hIb : Invariant b) (hIc : Invariant c)
    (ha : RawOnly a) (hb : RawOnly b) (hc : RawOnly c)
    (h1 : CompareFlowSpecKey a b = AHasPrecedence ∨ CompareFlowSpecKey a b = Equal)
    (h2 : CompareFlowSpecKey b c = AHasPrecedence ∨ CompareFlowSpecKey b c = Equal) :
    (CompareFlowSpecKey a c = AHasPrecedence ∨ CompareFlowSpecKey a c = Equal) ∧
      (CompareFlowSpecKey a c = Equal ↔
        CompareFlowSpecKey a b = Equal ∧ CompareFlowSpecKey b c = Equal) := by
  have g1 : CompareFlowSpecKey a b ≤ 0 := by
    rcases h1 with h | h <;> rw [h] <;> norm_num [AHasPrecedence, Equal]
  have g2 : CompareFlowSpecKey b c ≤ 0 := by
    rcases h2 with h | h <;> rw [h] <;> norm_num [AHasPrecedence, Equal]
  obtain ⟨hle, hiff⟩ := compare_rawOnly_trans a b c ha hb hc g1 g2
  have hr := compare_range a c
  constructor
  · unfold AHasPrecedence Equal
    omega
  · unfold Equal
    exact hiff

/-- Witness for the amended C1 at concrete raw-value lists. -/
theorem C1_witness :
    (CompareFlowSpecKey ⟨[⟨3, ⟨⟨false, 0⟩, 0⟩, [1, 2]⟩]⟩ ⟨[⟨3, ⟨⟨false, 0⟩, 0⟩, [2]⟩]⟩
        = AHasPrecedence ∨
      CompareFlowSpecKey ⟨[⟨3, ⟨⟨false, 0⟩, 0⟩, [1, 2]⟩]⟩ ⟨[⟨3, ⟨⟨false, 0⟩, 0⟩, [2]⟩]⟩
        = Equal) ∧
      (CompareFlowSpecKey ⟨[⟨3, ⟨⟨false, 0⟩, 0⟩, [1, 2]⟩]⟩ ⟨[⟨3, ⟨⟨false, 0⟩, 0⟩, [2]⟩]⟩
          = Equal ↔
        CompareFlowSpecKey ⟨[⟨3, ⟨⟨false, 0⟩, 0⟩, [1, 2]⟩]⟩ ⟨[⟨3, ⟨⟨false, 0⟩, 0⟩, [1]⟩]⟩
          = Equal ∧
        CompareFlowSpecKey ⟨[⟨3, ⟨⟨false, 0⟩, 0⟩, [1]⟩]⟩ ⟨[⟨3, ⟨⟨false, 0⟩, 0⟩, [2]⟩]⟩
          = Equal) :=
  C1_trans_rawOnly_amended ⟨[⟨3, ⟨⟨false, 0⟩, 0⟩, [1, 2]⟩]⟩ ⟨[⟨3, ⟨⟨false, 0⟩, 0⟩, [1]⟩]⟩
    ⟨[⟨3, ⟨⟨false, 0⟩, 0⟩, [2]⟩]⟩ (by decide) (by decide) (by decide) (by decide) (by decide)
    (by decide) (Or.inl (by decide)) (Or.inl (by decide))

/-- C2: `CompareFlowSpecKey` is antisymmetric (swapping the arguments negates
the result, exchanging AHasPrecedence and BHasPrecedence and fixing Equal)
and Equal-reflexive, for all pairs of component lists. -/
theorem C2_antisymm_refl :
    (∀ a b : FSComponentList, CompareFlowSpecKey a b = -CompareFlowSpecKey b a) ∧
      ∀ a : FSComponentList, CompareFlowSpecKey a a = Equal :=
  ⟨compare_antisymm, compare_refl⟩

/-- C9: the trailing `return BHasPrecedence` of the raw-value branch
(ordering.go line 102) is unreachable: the instrumented comparator, which
returns the sentinel 2 from exactly that statement, agrees with
`CompareFlowSpecKey` on every pair of inputs and never yields the sentinel. -/
theorem C9_fallback_unreachable (a b : FSComponentList) :
    CompareFlowSpecKeyMarked a b = CompareFlowSpecKey a b ∧
      CompareFlowSpecKeyMarked a b ≠ 2 := by
  refine ⟨compareFlowSpecKeyMarked_eq a b, ?_⟩
  rw [compareFlowSpecKeyMarked_eq a b]
  rcases compare_range a b with h | h | h <;> rw [h] <;> norm_num

/-- C3: at a position where both components carry the same prefix type,
the comparator decides as follows.  If the bit-lengths differ, the longer
prefix wins exactly when the shorter prefix contains the longer prefix's
address, and otherwise the position yields no decision and the walk proceeds.
If the bit-lengths are equal, the smaller address wins (for two addresses of
the same family this is the numerically smaller value), and equal addresses
yield no decision and the walk proceeds. -/
theorem C3_prefix_position (a b : FSComponent) (as bs : List FSComponent)
    (hty : a.type = b.type)
    (hpt : a.type = ComponentTypeDestinationPrefix ∨ a.type = ComponentTypeSourcePrefix) :
    (a.Prefix.Bits > b.Prefix.Bits →
        (b.Prefix.Contains a.Prefix.Addr = true → comparePos a b = AHasPrecedence) ∧
        (b.Prefix.Contains a.Prefix.Addr = false → comparePos a b = Equal ∧
          compareComponents (a :: as) (b :: bs) = compareComponents as bs)) ∧
    (b.Prefix.Bits > a.Prefix.Bits →
        (a.Prefix.Contains b.Prefix.Addr = true → comparePos a b = BHasPrecedence) ∧
        (a.Prefix.Contains b.Prefix.Addr = false → comparePos a b = Equal ∧
          compareComponents (a :: as) (b :: bs) = compareComponents as bs)) ∧
    (a.Prefix.Bits = b.Prefix.Bits →
        (a.Prefix.Addr.is6 = b.Prefix.Addr.is6 →
          (a.Prefix.Addr.val < b.Prefix.Addr.val → comparePos a b = AHasPrecedence) ∧
          (b.Prefix.Addr.val < a.Prefix.Addr.val → comparePos a b = BHasPrecedence)) ∧
        (a.Prefix.Addr = b.Prefix.Addr → comparePos a b = Equal ∧
          compareComponents (a :: as) (b :: bs) = compareComponents as bs)) := by
  have hred : comparePos a b = comparePrefixPos a.Prefix b.Prefix := by
    unfold comparePos
    rw [if_neg (by omega), if_neg (by omega), if_pos hpt]
  refine ⟨fun hab => ⟨fun hcont => ?_, fun hcont => ?_⟩,
    fun hba => ⟨fun hcont => ?_, fun hcont => ?_⟩,
    fun heq => ⟨fun h6 => ⟨fun hval => ?_, fun hval => ?_⟩, fun haddr => ?_⟩⟩
  · rw [hred]
    unfold comparePrefixPos
    rw [if_pos ⟨hab, hcont⟩]
  · have hEq : comparePrefixPos a.Prefix b.Prefix = 0 := by
      unfold comparePrefixPos
      rw [if_neg (fun hcc => by rw [hcont] at hcc; exact absurd hcc.2 (by simp)),
        if_neg (fun hcc => absurd hcc.1 (by omega)), if_neg (by omega)]
      rfl
    exact ⟨by rw [hred, hEq]; rfl, walk_proceeds a b as bs (by rw [hred, hEq])⟩
  · rw [hred]
    unfold comparePrefixPos
    rw [if_neg (fun hcc => absurd hcc.1 (by omega)), if_pos ⟨hba, hcont⟩]
  · have hEq : comparePrefixPos a.Prefix b.Prefix = 0 := by
      unfold comparePrefixPos
      rw [if_neg (fun hcc => absurd hcc.1 (by omega)),
        if_neg (fun hcc => by rw [hcont] at hcc; exact absurd hcc.2 (by simp)),
        if_neg (by omega)]
      rfl
    exact ⟨by rw [hred, hEq]; rfl, walk_proceeds a b as bs (by rw [hred, hEq])⟩
  · have hL : a.Prefix.Addr.Less b.Prefix.Addr = true := by
      unfold Addr.Less
      rw [if_pos h6]
      exact decide_eq_true hval
    rw [hred]
    unfold comparePrefixPos
    rw [if_neg (fun hcc => absurd hcc.1 (by omega)),
      if_neg (fun hcc => absurd hcc.1 (by omega)), if_pos heq, if_pos hL]
  · have hL1 : a.Prefix.Addr.Less b.Prefix.Addr = false := by
      unfold Addr.Less
      rw [if_pos h6]
      exact decide_eq_false (by omega)
    have hL2 : b.Prefix.Addr.Less a.Prefix.Addr = true := by
      unfold Addr.Less
      rw [if_pos h6.symm]
      exact decide_eq_true hval
    rw [hred]
    unfold comparePrefixPos
    rw [if_neg (fun hcc => absurd hcc.1 (by omega)),
      if_neg (fun hcc => absurd hcc.1 (by omega)), if_pos heq,
      if_neg (by rw [hL1]; simp), if_pos hL2]
  · have hL1 : a.Prefix.Addr.Less b.Prefix.Addr = false := by
      rw [haddr]
      exact Addr.Less_irrefl _
    have hL2 : b.Prefix.Addr.Less a.Prefix.Addr = false := by
      rw [haddr]
      exact Addr.Less_irrefl _
    have hEq : comparePrefixPos a.Prefix b.Prefix = 0 := by
      unfold comparePrefixPos
      rw [if_neg (fun hcc => absurd hcc.1 (by omega)),
        if_neg (fun hcc => absurd hcc.1 (by omega)), if_pos heq,
        if_neg (by rw [hL1]; simp), if_neg (by rw [hL2]; simp)]
      rfl
    exact ⟨by rw [hred, hEq]; rfl, walk_proceeds a b as bs (by rw [hred, hEq])⟩

/-- Witness for C3 at the test vectors: 192.0.2.0/24 beats 192.0.2.0/16
(more specific, contained) and 192.0.2.0/24 beats 192.0.2.128/24 (equal
length, lower address). -/
theorem C3_witness :
    comparePos ⟨1, ⟨⟨false, 3221225984⟩, 24⟩, []⟩ ⟨1, ⟨⟨false, 3221225984⟩, 16⟩, []⟩
        = AHasPrecedence ∧
      comparePos ⟨1, ⟨⟨false, 3221225984⟩, 24⟩, []⟩ ⟨1, ⟨⟨false, 3221226112⟩, 24⟩, []⟩
        = AHasPrecedence :=
  ⟨((C3_prefix_position ⟨1, ⟨⟨false, 3221225984⟩, 24⟩, []⟩ ⟨1, ⟨⟨false, 3221225984⟩, 16⟩, []⟩
      [] [] rfl (Or.inl rfl)).1 (by decide)).1 (by decide),
    ((((C3_prefix_position ⟨1, ⟨⟨false, 3221225984⟩, 24⟩, []⟩
        ⟨1, ⟨⟨false, 3221226112⟩, 24⟩, []⟩ [] [] rfl (Or.inl rfl)).2.2
      (by decide)).1 (by decide)).1 (by decide))⟩

/-- C4: at a position where both components carry the same raw-value
(non-prefix) type, the byte sequences are compared lexicographically over the
common length with the smaller byte winning at the first difference; if the
common bytes tie and the lengths differ, the longer sequence wins; identical
sequences yield no decision and the walk proceeds.  In particular
{0x81,0x11} vs {0x01,0x06} on the same raw type yields BHasPrecedence. -/
theorem C4_raw_position :
    (∀ (a b : FSComponent) (p : List Nat) (x y : Nat) (xs ys : List Nat),
        a.type = b.type →
        ¬ (a.type = ComponentTypeDestinationPrefix ∨ a.type = ComponentTypeSourcePrefix) →
        a.Raw = p ++ x :: xs → b.Raw = p ++ y :: ys →
        (x < y → comparePos a b = AHasPrecedence) ∧
          (y < x → comparePos a b = BHasPrecedence)) ∧
    (∀ (a b : FSComponent) (z : Nat) (zs : List Nat),
        a.type = b.type →
        ¬ (a.type = ComponentTypeDestinationPrefix ∨ a.type = ComponentTypeSourcePrefix) →
        (a.Raw = b.Raw ++ z :: zs → comparePos a b = AHasPrecedence) ∧
          (b.Raw = a.Raw ++ z :: zs → comparePos a b = BHasPrecedence)) ∧
    (∀ (a b : FSComponent) (as bs : List FSComponent),
        a.type = b.type →
        ¬ (a.type = ComponentTypeDestinationPrefix ∨ a.type = ComponentTypeSourcePrefix) →
        a.Raw = b.Raw →
        comparePos a b = Equal ∧
          compareComponents (a :: as) (b :: bs) = compareComponents as bs) ∧
    CompareFlowSpecKey ⟨[⟨3, ⟨⟨false, 0⟩, 0⟩, [129, 17]⟩]⟩ ⟨[⟨3, ⟨⟨false, 0⟩, 0⟩, [1, 6]⟩]⟩
      = BHasPrecedence := by
  refine ⟨?_, ?_, ?_, by decide⟩
  · intro a b p x y xs ys hty hpt hra hrb
    have hred := comparePos_eq_rawCmp a b hty hpt
    constructor
    · intro hxy
      rw [hred, hra, hrb]
      exact rawCmp_append_head p x y xs ys hxy
    · intro hyx
      rw [hred, hra, hrb, rawCmp_antisymm, rawCmp_append_head p y x ys xs hyx]
      norm_num [BHasPrecedence]
  · intro a b z zs hty hpt
    have hred := comparePos_eq_rawCmp a b hty hpt
    constructor
    · intro hra
      rw [hred, hra]
      exact rawCmp_append_longer b.Raw z zs
    · intro hrb
      rw [hred, hrb]
      exact rawCmp_append_shorter a.Raw z zs
  · intro a b as bs hty hpt hraw
    have h0 : comparePos a b = 0 := by
      rw [comparePos_eq_rawCmp a b hty hpt, hraw]
      exact (rawCmp_eq_zero b.Raw b.Raw).mpr rfl
    exact ⟨h0, walk_proceeds a b as bs h0⟩

/-- Witness for C4 at concrete byte strings: first differing byte decides
({0x81,0x01} vs {0x81,0x06}), and on a common-prefix tie the longer string
wins ({0x11,0x00,0x16} vs {0x11,0x00}). -/
theorem C4_witness :
    comparePos ⟨3, ⟨⟨false, 0⟩, 0⟩, [129, 1]⟩ ⟨3, ⟨⟨false, 0⟩, 0⟩, [129, 6]⟩
        = AHasPrecedence ∧
      comparePos ⟨4, ⟨⟨false, 0⟩, 0⟩, [17, 0, 22]⟩ ⟨4, ⟨⟨false, 0⟩, 0⟩, [17, 0]⟩
        = AHasPrecedence :=
  ⟨(C4_raw_position.1 ⟨3, ⟨⟨false, 0⟩, 0⟩, [129, 1]⟩ ⟨3, ⟨⟨false, 0⟩, 0⟩, [129, 6]⟩
      [129] 1 6 [] [] rfl (by decide) rfl rfl).1 (by decide),
    (C4_raw_position.2.1 ⟨4, ⟨⟨false, 0⟩, 0⟩, [17, 0, 22]⟩ ⟨4, ⟨⟨false, 0⟩, 0⟩, [17, 0]⟩
      22 [] rfl (by decide)).1 rfl⟩

/-! ### The feasibility validator (validator.go, types.go) -/

/-- The 12-byte prefix of an IPv4-in-IPv6 address, used by `net.IP.Equal`. -/
def v4InV6 : List Nat := [0, 0, 0, 0, 0, 0, 0, 0, 0, 0, 255, 255]

/-- `net.IP.Equal` on byte slices: equal slices of the same length, or a
4-byte and a 16-byte representation of the same IPv4 address. -/
def ipEqual (ip x : List Nat) : Bool :=
  if ip.length = x.length then ip == x
  else if ip.length = 4 ∧ x.length = 16 then
    (x.take 12 == v4InV6) && (ip == x.drop 12)
  else if ip.length = 16 ∧ x.length = 4 then
    (ip.take 12 == v4InV6) && (x == ip.drop 12)
  else false

/-- types.go: `FlowSpecRoute` (`DestPrefix *netip.Prefix` is an Option;
`OriginatorID net.IP` is a byte slice). -/
structure FlowSpecRoute where
  DestPrefix : Option Prefix
  FromEBGP : Bool
  NeighborAS : Nat
  ASPath : List Nat
  OriginatorID : List Nat

/-- types.go: `UnicastRoute`. -/
structure UnicastRoute where
  Prefix : Prefix
  NeighborAS : Nat
  ASPath : List Nat
  OriginatorID : List Nat

/-- types.go: the `UnicastRIB` interface, as a record of its two query
functions. -/
structure UnicastRIB where
  BestPath : Prefix → Option UnicastRoute
  MoreSpecifics : Prefix → List UnicastRoute

/-- types.go: the `ASPathPolicy` interface (an extension point; the decision
chain never calls it). -/
structure ASPathPolicy where
  Allows : List Nat → Bool

/-- types.go: `Config`; the policy field may be nil in Go, hence an Option. -/
structure Config where
  AllowNoDestPrefix : Bool
  EnableEmptyOrConfed : Bool
  ASPathPolicy : Option ASPathPolicy

/-- validator.go: the five rejection errors.  The validator returns `none`
for success (Go `nil`) and `some e` for error `e`. -/
inductive VError where
  | NoDestinationPrefix
  | NoBestUnicast
  | OriginatorValidationFailed
  | MoreSpecificFromOtherNeighbor
  | LeftMostASMismatch
deriving DecidableEq

/-- validator.go lines 27-32: the configuration installed when `cfg == nil`. -/
def defaultConfig : Config := ⟨false, true, none⟩

/-- validator.go from the `RuleCCheck` label (lines 58-81): rule c — every
more-specific unicast route must come from the best path's neighbor AS, the
first mismatch failing — then the RFC9117 left-most-AS check for rules from
external sessions.  (`fs.ASPath[0]`/`best.ASPath[0]` are guarded by the
emptiness checks, so `headD` coincides with Go's indexing here.) -/
def ruleCCheck (fs : FlowSpecRoute) (rib : UnicastRIB) (dst : Prefix)
    (best : UnicastRoute) : Option VError :=
  if (rib.MoreSpecifics dst).any fun r => r.NeighborAS != best.NeighborAS then
    some VError.MoreSpecificFromOtherNeighbor
  else if fs.FromEBGP then
    if best.ASPath.length = 0 then some VError.LeftMostASMismatch
    else if fs.ASPath.length = 0 then some VError.LeftMostASMismatch
    else if fs.ASPath.headD 0 ≠ best.ASPath.headD 0 then some VError.LeftMostASMismatch
    else none
  else none

/-- validator.go: `ValidateFeasibility`.  A `none` third argument models a
nil `cfg` pointer (defaults applied); the `goto RuleCCheck` is the first
branch to `ruleCCheck`. -/
def ValidateFeasibility (fs : FlowSpecRoute) (rib : UnicastRIB)
    (ocfg : Option Config) : Option VError :=
  let cfg := ocfg.getD defaultConfig
  match fs.DestPrefix with
  | none =>
    if !cfg.AllowNoDestPrefix then some VError.NoDestinationPrefix
    else none
  | some dst =>
    match rib.BestPath dst with
    | none => some VError.NoBestUnicast
    | some best =>
      if cfg.EnableEmptyOrConfed && !fs.FromEBGP && fs.ASPath.length == 0 then
        ruleCCheck fs rib dst best
      else if !(ipEqual best.OriginatorID fs.OriginatorID) then
        some VError.OriginatorValidationFailed
      else ruleCCheck fs rib dst best

/-! ### The claims about the validator -/

/-- C6: with no destination prefix, validation returns success when
allow-no-dest-prefix is enabled and NoDestinationPrefix otherwise, with no
further checks (the result does not depend on the RIB); and with a
destination prefix whose best-path query returns no route it returns
NoBestUnicast. -/
theorem C6_dest_and_best (fs : FlowSpecRoute) (rib : UnicastRIB) (ocfg : Option Config) :
    (fs.DestPrefix = none →
      ValidateFeasibility fs rib ocfg =
        if (ocfg.getD defaultConfig).AllowNoDestPrefix = true then none
        else some VError.NoDestinationPrefix) ∧
    ∀ dst : Prefix, fs.DestPrefix = some dst → rib.BestPath dst = none →
      ValidateFeasibility fs rib ocfg = some VError.NoBestUnicast := by
  constructor
  · intro h
    cases hA : (ocfg.getD defaultConfig).AllowNoDestPrefix <;>
      simp [ValidateFeasibility, h, hA]
  · intro dst h hb
    simp [ValidateFeasibility, h, hb]

/-- Witness for C6: a rule without destination prefix is rejected with
NoDestinationPrefix under the strict configuration, and a rule whose
destination has no best path is rejected with NoBestUnicast. -/
theorem C6_witness :
    (⟨none, false, 0, [], [192, 0, 2, 1]⟩ : FlowSpecRoute).DestPrefix = none ∧
    ValidateFeasibility ⟨none, false, 0, [], [192, 0, 2, 1]⟩
        ⟨fun _ => none, fun _ => []⟩ (some ⟨false, true, none⟩)
      = some VError.NoDestinationPrefix ∧
    ValidateFeasibility ⟨some ⟨⟨false, 3221225984⟩, 24⟩, false, 65001, [65001], [192, 0, 2, 1]⟩
        ⟨fun _ => none, fun _ => []⟩ (some ⟨false, true, none⟩)
      = some VError.NoBestUnicast :=
  ⟨rfl,
    ((C6_dest_and_best ⟨none, false, 0, [], [192, 0, 2, 1]⟩ ⟨fun _ => none, fun _ => []⟩
      (some ⟨false, true, none⟩)).1 rfl).trans (by decide),
    (C6_dest_and_best ⟨some ⟨⟨false, 3221225984⟩, 24⟩, false, 65001, [65001], [192, 0, 2, 1]⟩
      ⟨fun _ => none, fun _ => []⟩ (some ⟨false, true, none⟩)).2 ⟨⟨false, 3221225984⟩, 24⟩
      rfl rfl⟩

/-- C7: with a destination prefix and a best path, the originator check is
skipped (the validator proceeds directly to rule c) exactly when the
empty-AS_PATH relaxation is enabled, the rule is not from an external
session, and its AS_PATH is empty; in every other case an originator
mismatch yields OriginatorValidationFailed — before rule c or the left-most
check is consulted — and an originator match proceeds to rule c. -/
theorem C7_originator (fs : FlowSpecRoute) (rib : UnicastRIB) (ocfg : Option Config)
    (dst : Prefix) (best : UnicastRoute)
    (h1 : fs.DestPrefix = some dst) (h2 : rib.BestPath dst = some best) :
    ((ocfg.getD defaultConfig).EnableEmptyOrConfed = true → fs.FromEBGP = false →
      fs.ASPath = [] → ValidateFeasibility fs rib ocfg = ruleCCheck fs rib dst best) ∧
    (¬ ((ocfg.getD defaultConfig).EnableEmptyOrConfed = true ∧ fs.FromEBGP = false ∧
        fs.ASPath = []) →
      (ipEqual best.OriginatorID fs.OriginatorID = false →
        ValidateFeasibility fs rib ocfg = some VError.OriginatorValidationFailed) ∧
      (ipEqual best.OriginatorID fs.OriginatorID = true →
        ValidateFeasibility fs rib ocfg = ruleCCheck fs rib dst best)) := by
  constructor
  · intro he hf ha
    simp [ValidateFeasibility, h1, h2, he, hf, ha]
  · intro hn
    have hcond : ((ocfg.getD defaultConfig).EnableEmptyOrConfed && !fs.FromEBGP &&
        (fs.ASPath.length == 0)) = false := by
      by_contra hx
      apply hn
      have hx2 : ((ocfg.getD defaultConfig).EnableEmptyOrConfed && !fs.FromEBGP &&
          (fs.ASPath.length == 0)) = true := by
        cases hy : ((ocfg.getD defaultConfig).EnableEmptyOrConfed && !fs.FromEBGP &&
            (fs.ASPath.length == 0))
        · exact absurd hy hx
        · rfl
      simp only [Bool.and_eq_true, Bool.not_eq_true', beq_iff_eq] at hx2
      exact ⟨hx2.1.1, hx2.1.2, List.length_eq_zero.mp hx2.2⟩
    constructor
    · intro hip
      simp [ValidateFeasibility, h1, h2, hcond, hip]
    · intro hip
      simp [ValidateFeasibility, h1, h2, hcond, hip]

/-- Witness for C7: an iBGP rule with non-empty AS_PATH whose originator
differs from the best path's is rejected with OriginatorValidationFailed. -/
theorem C7_witness :
    ipEqual [192, 0, 2, 1] [192, 0, 2, 2] = false ∧
    ValidateFeasibility ⟨some ⟨⟨false, 3221225984⟩, 24⟩, false, 65001, [65001], [192, 0, 2, 2]⟩
        ⟨fun _ => some ⟨⟨⟨false, 3221225984⟩, 24⟩, 65001, [65001], [192, 0, 2, 1]⟩, fun _ => []⟩
        (some ⟨false, true, none⟩)
      = some VError.OriginatorValidationFailed :=
  ⟨by decide,
    ((C7_originator ⟨some ⟨⟨false, 3221225984⟩, 24⟩, false, 65001, [65001], [192, 0, 2, 2]⟩
      ⟨fun _ => some ⟨⟨⟨false, 3221225984⟩, 24⟩, 65001, [65001], [192, 0, 2, 1]⟩, fun _ => []⟩
      (some ⟨false, true, none⟩) ⟨⟨false, 3221225984⟩, 24⟩
      ⟨⟨⟨false, 3221225984⟩, 24⟩, 65001, [65001], [192, 0, 2, 1]⟩ rfl rfl).2
      (by decide)).1 (by decide)⟩

/-- C8: for a rule that passed steps a-c (destination present, best path
found, originator check passed or skipped, no more-specific from another
neighbor): if it arrived over an external session the result is
LeftMostASMismatch exactly when the best path's AS_PATH is empty, the rule's
AS_PATH is empty, or their first AS numbers differ — and success otherwise;
if it did not arrive over an external session the check is skipped and
validation succeeds. -/
theorem C8_leftmost (fs : FlowSpecRoute) (rib : UnicastRIB) (ocfg : Option Config)
    (dst : Prefix) (best : UnicastRoute)
    (h1 : fs.DestPrefix = some dst) (h2 : rib.BestPath dst = some best)
    (hOrig : ipEqual best.OriginatorID fs.OriginatorID = true ∨
      ((ocfg.getD defaultConfig).EnableEmptyOrConfed = true ∧ fs.FromEBGP = false ∧
        fs.ASPath = []))
    (hms : ∀ r ∈ rib.MoreSpecifics dst, r.NeighborAS = best.NeighborAS) :
    (fs.FromEBGP = true →
      ValidateFeasibility fs rib ocfg =
        if best.ASPath = [] ∨ fs.ASPath = [] ∨ fs.ASPath.headD 0 ≠ best.ASPath.headD 0
        then some VError.LeftMostASMismatch
        else none) ∧
    (fs.FromEBGP = false → ValidateFeasibility fs rib ocfg = none) := by
  have hany : ((rib.MoreSpecifics dst).any fun r => r.NeighborAS != best.NeighborAS)
      = false := by
    rw [List.any_eq_false]
    intro r hr
    simp [hms r hr]
  constructor
  · intro hE
    rcases hOrig with ho | ho
    · by_cases hbst : best.ASPath = []
      · simp [ValidateFeasibility, h1, h2, hE, ho, ruleCCheck, hany, hbst]
      · by_cases hfp : fs.ASPath = []
        · simp [ValidateFeasibility, h1, h2, hE, ho, ruleCCheck, hany, hbst, hfp,
            List.length_eq_zero]
        · by_cases hh : fs.ASPath.headD 0 ≠ best.ASPath.headD 0
          · simp [ValidateFeasibility, h1, h2, hE, ho, ruleCCheck, hany, hbst, hfp, hh,
              List.length_eq_zero]
          · simp [ValidateFeasibility, h1, h2, hE, ho, ruleCCheck, hany, hbst, hfp, hh,
              List.length_eq_zero]
    · exact absurd ho.2.1 (by rw [hE]; simp)
  · intro hE
    rcases hOrig with ho | ho
    · simp [ValidateFeasibility, h1, h2, hE, ho, ruleCCheck, hany]
    · simp [ValidateFeasibility, h1, h2, hE, ho.1, ho.2.2, ruleCCheck, hany]

/-- Witness for C8: the test vector — external rule with AS_PATH
[65002,65001] against a best path with AS_PATH [65001,64512] — is rejected
with LeftMostASMismatch. -/
theorem C8_witness :
    (⟨some ⟨⟨false, 3221225984⟩, 24⟩, true, 65001, [65002, 65001],
        [192, 0, 2, 1]⟩ : FlowSpecRoute).FromEBGP = true ∧
    ValidateFeasibility
        ⟨some ⟨⟨false, 3221225984⟩, 24⟩, true, 65001, [65002, 65001], [192, 0, 2, 1]⟩
        ⟨fun _ => some ⟨⟨⟨false, 3221225984⟩, 24⟩, 65001, [65001, 64512], [192, 0, 2, 1]⟩,
          fun _ => []⟩
        (some ⟨false, true, none⟩)
      = some VError.LeftMostASMismatch :=
  ⟨rfl,
    (((C8_leftmost
      ⟨some ⟨⟨false, 3221225984⟩, 24⟩, true, 65001, [65002, 65001], [192, 0, 2, 1]⟩
      ⟨fun _ => some ⟨⟨⟨false, 3221225984⟩, 24⟩, 65001, [65001, 64512], [192, 0, 2, 1]⟩,
        fun _ => []⟩
      (some ⟨false, true, none⟩) ⟨⟨false, 3221225984⟩, 24⟩
      ⟨⟨⟨false, 3221225984⟩, 24⟩, 65001, [65001, 64512], [192, 0, 2, 1]⟩ rfl rfl
      (Or.inl (by decide)) (by simp)).1 rfl).trans (by decide))⟩

/-- C10: for a rule that arrived over an external session, the
EnableEmptyOrConfed flag never changes the validation result: two
configurations differing only in that flag validate identically. -/
theorem C10_ebgp_flag_independent (fs : FlowSpecRoute) (rib : UnicastRIB)
    (cfg : Config) (b : Bool) (h : fs.FromEBGP = true) :
    ValidateFeasibility fs rib (some cfg) =
      ValidateFeasibility fs rib (some ⟨cfg.AllowNoDestPrefix, b, cfg.ASPathPolicy⟩) := by
  cases hfd : fs.DestPrefix with
  | none => simp [ValidateFeasibility, hfd]
  | some dst =>
    cases hbp : rib.BestPath dst with
    | none => simp [ValidateFeasibility, hfd, hbp]
    | some best => simp [ValidateFeasibility, hfd, hbp, h]

/-- Witness for C10: the eBGP test rule validates identically with the
relaxation flag on and off. -/
theorem C10_witness :
    (⟨some ⟨⟨false, 3221225984⟩, 24⟩, true, 65001, [65002, 65001],
        [192, 0, 2, 1]⟩ : FlowSpecRoute).FromEBGP = true ∧
    ValidateFeasibility
        ⟨some ⟨⟨false, 3221225984⟩, 24⟩, true, 65001, [65002, 65001], [192, 0, 2, 1]⟩
        ⟨fun _ => some ⟨⟨⟨false, 3221225984⟩, 24⟩, 65001, [65001, 64512], [192, 0, 2, 1]⟩,
          fun _ => []⟩
        (some ⟨false, true, none⟩)
      = ValidateFeasibility
        ⟨some ⟨⟨false, 3221225984⟩, 24⟩, true, 65001, [65002, 65001], [192, 0, 2, 1]⟩
        ⟨fun _ => some ⟨⟨⟨false, 3221225984⟩, 24⟩, 65001, [65001, 64512], [192, 0, 2, 1]⟩,
          fun _ => []⟩
        (some ⟨(⟨false, true, none⟩ : Config).AllowNoDestPrefix, false,
          (⟨false, true, none⟩ : Config).ASPathPolicy⟩) :=
  ⟨rfl,
    C10_ebgp_flag_independent
      ⟨some ⟨⟨false, 3221225984⟩, 24⟩, true, 65001, [65002, 65001], [192, 0, 2, 1]⟩
      ⟨fun _ => some ⟨⟨⟨false, 3221225984⟩, 24⟩, 65001, [65001, 64512], [192, 0, 2, 1]⟩,
        fun _ => []⟩
      ⟨false, true, none⟩ false rfl⟩

end FSpec
